import Mathlib

/-!
Verification of the private-chat-room core against its specification.

The development shallowly embeds the two core source modules:

* `src/totp.ts` — Base32 decoding, HOTP/TOTP computation and token
  verification (namespace `Totp` below, plus the Base32 encoder from
  `scripts/generate-secrets.ts`);
* `src/ChatRoom.ts` — the Durable-Object room coordinator (namespace
  `ChatRoom` below), modelled as pure state-transition functions that
  return the new room state together with the ordered list of observable
  effects (socket accepts, attachment writes, sends, SQL inserts).

JavaScript machine integers are modelled as `Nat`/`Int` with explicit
`% 2^32` where the source relies on 32-bit coercions (`<<`, `>>>`, `|`,
`&`).  Platform primitives (HMAC-SHA1, `Date.now()`, `JSON.parse`
results) are passed in as explicit parameters, so every definition is
executable on concrete inputs.
-/

namespace Totp

/-- RFC 4648 Base32 alphabet, as in `src/totp.ts` (and duplicated in
`scripts/generate-secrets.ts`). -/
def BASE32_ALPHABET : String := "ABCDEFGHIJKLMNOPQRSTUVWXYZ234567"

/-- The JavaScript regular-expression class `\s` (whitespace), used by
`base32Decode` (`/[=\s]/g`) and `sanitizeToken` (`/\s/g`). -/
def isJsSpace (c : Char) : Bool :=
  c = ' ' || c = '\t' || c = '\n' || c = '\u000B' || c = '\u000C' || c = '\r' ||
  c = '\u00A0' || c = '\u1680' || c = '\u2000' || c = '\u2001' || c = '\u2002' ||
  c = '\u2003' || c = '\u2004' || c = '\u2005' || c = '\u2006' || c = '\u2007' ||
  c = '\u2008' || c = '\u2009' || c = '\u200A' || c = '\u2028' || c = '\u2029' ||
  c = '\u202F' || c = '\u205F' || c = '\u3000' || c = '\uFEFF'

/-- `BASE32_ALPHABET.indexOf(char)`, with the not-found sentinel `-1`
rendered as `none`. -/
def alphaIdx : List Char → Char → Option Nat
  | [], _ => none
  | a :: as, c => if a = c then some 0 else (alphaIdx as c).map (· + 1)

/-- Indexing into the alphabet string, `BASE32_ALPHABET[k]`.  The source
only ever indexes with `k < 32` (the value is masked by `& 31` or `% 32`
first), so the default is never reached. -/
def alphaChar (k : Nat) : Char := BASE32_ALPHABET.toList.getD k 'A'

/-- The normalisation step of `base32Decode`:
`input.toUpperCase().replace(/[=\s]/g, '')`. -/
def b32Clean (s : String) : List Char :=
  (s.toList.map Char.toUpper).filter (fun c => !(c = '=' || isJsSpace c))

/-- The accumulation loop of `base32Decode`.  The running `value` is a
32-bit JS integer; `(value << 5) | charIndex` is modelled as
`(value <<< 5) % 2^32 ||| ci` (the `|` operand `ci` is below 32 so the
coercion to 32 bits happens at the shift).  A byte is emitted whenever at
least 8 bits have accumulated: `(value >>> (bits - 8)) & 0xff`.  A
character outside the alphabet aborts the whole decode (the source
throws). -/
def b32Loop : List Char → Nat → Nat → Option (List Nat)
  | [], _, _ => some []
  | c :: cs, bits, value =>
    match alphaIdx BASE32_ALPHABET.toList c with
    | none => none
    | some ci =>
      if 8 ≤ bits + 5 then
        (b32Loop cs (bits + 5 - 8) ((value <<< 5) % 4294967296 ||| ci)).map
          (fun rest =>
            ((((value <<< 5) % 4294967296 ||| ci) >>> (bits + 5 - 8)) &&& 255) :: rest)
      else
        b32Loop cs (bits + 5) ((value <<< 5) % 4294967296 ||| ci)

/-- `base32Decode` from `src/totp.ts`.  The source preallocates an output
array of `floor(clean.length * 5 / 8)` bytes and fills it left to right;
the loop emits exactly that many bytes (proved below), so the function is
modelled as returning the emitted bytes. -/
def base32Decode (input : String) : Option (List Nat) :=
  b32Loop (b32Clean input) 0 0

/-- The inner `while (bits >= 5)` emission loop of `base32Encode` from
`scripts/generate-secrets.ts`, emitting `ALPHABET[(value >>> (bits - 5)) & 31]`
while at least five bits remain.  The loop runs at most `bits / 5 + 1`
times, so `bits` itself is enough fuel; the fuel-exhausted branch is never
reached. -/
def b32EmitF : Nat → Nat → Nat → List Char × Nat
  | 0, _, bits => ([], bits)
  | fuel + 1, value, bits =>
    if 5 ≤ bits then
      match b32EmitF fuel value (bits - 5) with
      | (cs, r) => (alphaChar ((value >>> (bits - 5)) &&& 31) :: cs, r)
    else ([], bits)

/-- The byte loop of `base32Encode`: `value = (value << 8) | data[i]`
(32-bit), then emit all complete 5-bit groups; after the last byte, if
`bits > 0`, one final symbol `ALPHABET[(value << (5 - bits)) & 31]` is
appended. -/
def b32EncLoop : List Nat → Nat → Nat → List Char
  | [], value, bits =>
    if 0 < bits then [alphaChar ((value <<< (5 - bits)) % 4294967296 &&& 31)] else []
  | b :: bs, value, bits =>
    match b32EmitF (bits + 8) ((value <<< 8) % 4294967296 ||| b) (bits + 8) with
    | (cs, r) => cs ++ b32EncLoop bs ((value <<< 8) % 4294967296 ||| b) r

/-- `base32Encode` from `scripts/generate-secrets.ts`.  The input is a
`Uint8Array`, so every element is below 256 (a hypothesis of the theorems
below). -/
def base32Encode (data : List Nat) : String :=
  ⟨b32EncLoop data 0 0⟩

/-- `Math.floor(counter / 0x100000000)` from `counterToBytes`.  The
division of a float integer by a power of two is exact below `2 ^ 53`,
so the floor of the float quotient is exact floor division. -/
def jsFloorDivHigh (counter : Int) : Int := Int.fdiv counter 4294967296

/-- JavaScript `x >>> 0`: coercion of a number to an unsigned 32-bit
integer. -/
def toUint32 (i : Int) : Nat := (i % 4294967296).toNat

/-- `counterToBytes` from `src/totp.ts`: the 8-byte big-endian encoding
of the counter, produced from the high and low 32-bit halves with shift
and mask operations. -/
def counterToBytes (counter : Int) : List Nat :=
  [ (toUint32 (jsFloorDivHigh counter) >>> 24) &&& 255,
    (toUint32 (jsFloorDivHigh counter) >>> 16) &&& 255,
    (toUint32 (jsFloorDivHigh counter) >>> 8) &&& 255,
    toUint32 (jsFloorDivHigh counter) &&& 255,
    (toUint32 counter >>> 24) &&& 255,
    (toUint32 counter >>> 16) &&& 255,
    (toUint32 counter >>> 8) &&& 255,
    toUint32 counter &&& 255 ]

/-- Decimal digit characters, as produced by JS `Number.prototype.toString`. -/
def digitChar (n : Nat) : Char := Char.ofNat (48 + n)

/-- Fuel-driven decimal rendering; `decDigits` supplies enough fuel for
any input, so the fuel-exhausted branch is never reached. -/
def decDigitsF : Nat → Nat → List Char
  | 0, _ => []
  | fuel + 1, n =>
    if n < 10 then [digitChar n] else decDigitsF fuel (n / 10) ++ [digitChar (n % 10)]

/-- JS `n.toString()` for a non-negative integer: its decimal digit
string. -/
def decDigits (n : Nat) : List Char := decDigitsF (n + 1) n

/-- JS `s.padStart(6, '0')`. -/
def padStart6 (s : List Char) : List Char := List.replicate (6 - s.length) '0' ++ s

/-- `hotp` from `src/totp.ts`, with the HMAC-SHA1 platform primitive
(`crypto.subtle.sign`) passed in as a function from key and message to
digest bytes.  Dynamic truncation per RFC 4226 §5.3, then `% 1_000_000`,
rendered in decimal and left-padded to six digits. -/
def hotp (hmacSha1 : List Nat → List Nat → List Nat) (secretBytes : List Nat)
    (counter : Int) : String :=
  let hmac := hmacSha1 secretBytes (counterToBytes counter)
  let offset := hmac.getD (hmac.length - 1) 0 &&& 15
  let code :=
    ((hmac.getD offset 0 &&& 127) <<< 24) |||
    ((hmac.getD (offset + 1) 0 &&& 255) <<< 16) |||
    ((hmac.getD (offset + 2) 0 &&& 255) <<< 8) |||
    (hmac.getD (offset + 3) 0 &&& 255)
  ⟨padStart6 (decDigits (code % 1000000))⟩

/-- `sanitizeToken` from `src/totp.ts`: strip whitespace, then require
exactly six ASCII decimal digits (`/^\d{6}$/`). -/
def sanitizeToken (raw : String) : Option String :=
  let token := raw.toList.filter (fun c => !isJsSpace c)
  if token.length = 6 && token.all Char.isDigit then some ⟨token⟩ else none

/-- `timingSafeEqual` from `src/totp.ts` compares the SHA-256 digests of
the two strings with the platform's constant-time comparator; its result
is `true` exactly when the digests agree.  SHA-256 is modelled as
injective (the standard ideal-hash assumption), so the comparator is
string equality.  Timing behaviour itself is outside a shallow
embedding. -/
def timingSafeEqual (a b : String) : Bool := a == b

/-- Observable outcome of one `verifyToken` call: the boolean returned to
the caller, the number of HOTP computations performed (cryptographic
work), and whether the configuration-error log line
(`console.error("Invalid TOTP Secret Configuration: ...")`) was
emitted. -/
structure VerifyResult where
  ok : Bool
  hotpCalls : Nat
  configError : Bool
  deriving Repr, DecidableEq

/-- The `for (const delta of [-1, 0, 1])` loop of `verifyToken`, counting
each `hotp` evaluation and returning on the first constant-time match. -/
def verifyLoop (hmacSha1 : List Nat → List Nat → List Nat) (secretBytes : List Nat)
    (cleaned : String) (currentStep : Nat) : List Int → Nat → VerifyResult
  | [], calls => ⟨false, calls, false⟩
  | d :: ds, calls =>
    if timingSafeEqual cleaned (hotp hmacSha1 secretBytes ((currentStep : Int) + d)) then
      ⟨true, calls + 1, false⟩
    else
      verifyLoop hmacSha1 secretBytes cleaned currentStep ds (calls + 1)

/-- `verifyToken` from `src/totp.ts`.  `Date.now()` is the `nowMs`
parameter; `currentStep = Math.floor(now / 30_000)`.  Sanitisation
failure returns before any secret decoding or cryptography; a Base32
decode failure is caught, logged as a configuration error, and returned
to the caller as a plain `false`. -/
def verifyToken (hmacSha1 : List Nat → List Nat → List Nat) (secret : String)
    (token : String) (nowMs : Nat) : VerifyResult :=
  match sanitizeToken token with
  | none => ⟨false, 0, false⟩
  | some cleaned =>
    match base32Decode secret with
    | none => ⟨false, 0, true⟩
    | some secretBytes =>
      verifyLoop hmacSha1 secretBytes cleaned (nowMs / 30000) [-1, 0, 1] 0

/-- The 8-byte big-endian encoding of a natural number, as the claim for
`counterToBytes` words it: byte `i` is digit `i` of the base-256
expansion, most significant first. -/
def bigEndian8 (n : Nat) : List Nat :=
  [n / 2 ^ 56 % 256, n / 2 ^ 48 % 256, n / 2 ^ 40 % 256, n / 2 ^ 32 % 256,
   n / 2 ^ 24 % 256, n / 2 ^ 16 % 256, n / 2 ^ 8 % 256, n % 256]

/-- The RFC 4226 reference value, following the claim's wording: HMAC the
8-byte big-endian counter, take the low nibble of the last digest byte as
offset `o`, read 4 bytes at `o` with the top bit of the first masked off,
interpret big-endian, reduce modulo 1,000,000, left-pad with zeros to six
decimal digits. -/
def rfcHotp (hmacSha1 : List Nat → List Nat → List Nat) (secretBytes : List Nat)
    (counter : Nat) : String :=
  let digest := hmacSha1 secretBytes (bigEndian8 counter)
  let o := digest.getD (digest.length - 1) 0 % 16
  let v := digest.getD o 0 % 128 * 2 ^ 24 + digest.getD (o + 1) 0 % 256 * 2 ^ 16 +
    digest.getD (o + 2) 0 % 256 * 2 ^ 8 + digest.getD (o + 3) 0 % 256
  ⟨padStart6 (decDigits (v % 1000000))⟩

/-- A concrete digest function for witnesses: the digest is twenty copies
of the counter's last byte, so nearby counters have distinct codes. -/
def hmacW : List Nat → List Nat → List Nat :=
  fun _ m => List.replicate 20 (m.getD 7 0)

end Totp

namespace ChatRoom

/-- Message-type tags from the `MSG_TYPE` constant of `src/ChatRoom.ts`. -/
def MSG_TYPE_HISTORY : String := "history"

/-- `MSG_TYPE.MESSAGE`. -/
def MSG_TYPE_MESSAGE : String := "message"

/-- `MSG_TYPE.SYSTEM`. -/
def MSG_TYPE_SYSTEM : String := "system"

/-- `MSG_TYPE.ERROR`. -/
def MSG_TYPE_ERROR : String := "error"

/-- `HISTORY_LIMIT` from `src/ChatRoom.ts`. -/
def HISTORY_LIMIT : Nat := 50

/-- `DEFAULT_USERNAME` from `src/ChatRoom.ts`. -/
def DEFAULT_USERNAME : String := "Anonymous"

/-- The per-connection `SessionState` serialised onto the WebSocket via
`serializeAttachment`. -/
structure SessionState where
  username : String
  joinedAt : Nat
  deriving Repr, DecidableEq

/-- A row of the `messages` table / the `ChatMessage` type: `id` is the
SQLite `INTEGER PRIMARY KEY` assigned at insertion. -/
structure ChatMessage where
  id : Nat
  type : String
  user : String
  text : String
  timestamp : Nat
  deriving Repr, DecidableEq

/-- A WebSocket connection handle, identified abstractly. -/
abbrev ConnId : Type := Nat

/-- The wire payloads of `OutboundMessage` in `src/ChatRoom.ts`. -/
inductive Outbound where
  | history (messages : List ChatMessage)
  | message (m : ChatMessage)
  | system (id : Option Nat) (text : String)
  | error (error : String)
  deriving Repr, DecidableEq

/-- A JSON value as produced by `JSON.parse`.  Numbers are modelled as
integers (no claim depends on float behaviour); `JSON.parse` output has
unique object keys (on duplicates the last wins, and only one survives
parsing). -/
inductive JsonVal where
  | null
  | bool (b : Bool)
  | num (n : Int)
  | str (s : String)
  | arr (len : Nat)
  | obj (fields : List (String × JsonVal))

/-- JS property access `data.text`.  On `null` the access throws a
`TypeError` (caught by the handler); on primitives and arrays it yields
`undefined` (`none`); on objects it looks the key up. -/
def getTextProp : JsonVal → Except Unit (Option JsonVal)
  | .null => .error ()
  | .obj fields => .ok (fields.lookup "text")
  | _ => .ok none

/-- JS truthiness of a JSON value, as tested by `if (data.text)`. -/
def truthy : JsonVal → Bool
  | .null => false
  | .bool b => b
  | .num n => n != 0
  | .str s => s != ""
  | .arr _ => true
  | .obj _ => true

/-- The stored form of the `text` field.  Every claim exercises only the
string case; how the SQLite driver would bind a non-string JS value is
outside the claims, so non-strings are collapsed to the empty string. -/
def jsonAsText : JsonVal → String
  | .str s => s
  | _ => ""

/-- The room's state: the live WebSocket handles (owned by the platform,
returned by `this.ctx.getWebSockets()`, in accept order) and the rows of
the `messages` table in insertion (rowid) order. -/
structure RoomState where
  conns : List ConnId
  store : List ChatMessage
  deriving Repr

/-- One observable side effect of a handler, in program order. -/
inductive Effect where
  | acceptSocket (c : ConnId)
  | attach (c : ConnId) (s : SessionState)
  | send (c : ConnId) (m : Outbound)
  | sqlInsert (m : ChatMessage)
  deriving Repr, DecidableEq

/-- SQLite's rowid assignment for `INTEGER PRIMARY KEY` with no explicit
value: one greater than the largest rowid in the table (1 for an empty
table). -/
def nextId (store : List ChatMessage) : Nat :=
  (store.map (fun m => m.id)).foldr max 0 + 1

/-- `insert` from `src/ChatRoom.ts`: the single `INSERT ... RETURNING id`
statement.  Returns the stored message (input fields plus assigned id)
and the new table contents. -/
def insert (store : List ChatMessage) (type user text : String) (timestamp : Nat) :
    ChatMessage × List ChatMessage :=
  let m : ChatMessage := ⟨nextId store, type, user, text, timestamp⟩
  (m, store ++ [m])

/-- `broadcast` from `src/ChatRoom.ts`: send the serialised payload to
every live handle returned by `this.ctx.getWebSockets()`; per-handle send
failures are swallowed. -/
def broadcast (conns : List ConnId) (m : Outbound) : List Effect :=
  conns.map (fun c => .send c m)

/-- `broadcastSystem` from `src/ChatRoom.ts`: persist a system event
authored by `"system"`, then broadcast `{type: "system", id, text}`. -/
def broadcastSystem (st : RoomState) (text : String) (now : Nat) :
    RoomState × List Effect :=
  let r := insert st.store MSG_TYPE_SYSTEM "system" text now
  ({ st with store := r.2 },
    .sqlInsert r.1 :: broadcast st.conns (.system (some r.1.id) r.1.text))

/-- The stable descending insertion position used to model SQLite's
`ORDER BY timestamp DESC`: insert after every element with a
greater-or-equal timestamp, so rows with tied timestamps stay in table
order. -/
def insertByTsDesc (m : ChatMessage) : List ChatMessage → List ChatMessage
  | [] => [m]
  | x :: xs => if m.timestamp ≤ x.timestamp then x :: insertByTsDesc m xs else m :: x :: xs

/-- `SELECT * FROM messages ORDER BY timestamp DESC` as a stable sort of
the table in rowid order. -/
def sortByTimestampDesc (store : List ChatMessage) : List ChatMessage :=
  store.foldl (fun acc m => insertByTsDesc m acc) []

/-- The history query of `fetch`: newest 50 by timestamp, then
`.reverse()` for chronological display. -/
def historyOf (store : List ChatMessage) : List ChatMessage :=
  ((sortByTimestampDesc store).take HISTORY_LIMIT).reverse

/-- JS `url.searchParams.get("username") || DEFAULT_USERNAME`: `get`
returns `null` (`none`) for a missing parameter, and `||` replaces both
`null` and the empty string by the default. -/
def usernameOf (param : Option String) : String :=
  match param with
  | none => DEFAULT_USERNAME
  | some s => if s = "" then DEFAULT_USERNAME else s

/-- `fetch` from `src/ChatRoom.ts`, the WebSocket upgrade handler.
Inputs: the upgrade-header check, the `username` query parameter, the
fresh server-side socket handle, and the two `Date.now()` readings (one
for `joinedAt`, one inside `broadcastSystem`).  Returns the new room
state, the effect trace in program order, and the HTTP status of the
response (426 or 101).  `acceptWebSocket` registers the handle before the
join broadcast, so the broadcast covers the new connection too. -/
def fetch (st : RoomState) (isWebSocketUpgrade : Bool) (usernameParam : Option String)
    (newConn : ConnId) (now now' : Nat) : RoomState × List Effect × Nat :=
  if !isWebSocketUpgrade then (st, [], 426)
  else
    let username := usernameOf usernameParam
    let st1 : RoomState := { st with conns := st.conns ++ [newConn] }
    let history := historyOf st.store
    let r := broadcastSystem st1 (username ++ " joined the room.") now'
    (r.1,
      .acceptSocket newConn ::
      .attach newConn ⟨username, now⟩ ::
      .send newConn (.history history) ::
      r.2,
      101)

/-- `webSocketMessage` from `src/ChatRoom.ts`.  `parsed` is the outcome
of `JSON.parse(message)`: `none` when parsing throws.  A parse throw, or
the `TypeError` from reading `.text` off `null`, lands in the `catch`
that answers the sender with the error payload; a missing or falsy
`text` skips the `if` body and does nothing; a truthy `text` is
persisted and then broadcast with its assigned id. -/
def webSocketMessage (st : RoomState) (sender : ConnId) (sess : SessionState)
    (parsed : Option JsonVal) (now : Nat) : RoomState × List Effect :=
  match parsed with
  | none => (st, [.send sender (.error "Invalid message format")])
  | some data =>
    match getTextProp data with
    | .error _ => (st, [.send sender (.error "Invalid message format")])
    | .ok none => (st, [])
    | .ok (some tv) =>
      if truthy tv then
        let r := insert st.store MSG_TYPE_MESSAGE sess.username (jsonAsText tv) now
        ({ st with store := r.2 },
          .sqlInsert r.1 :: broadcast st.conns (.message r.1))
      else (st, [])

/-- `webSocketClose` from `src/ChatRoom.ts`: recover the attachment and
announce the leave.  The live-handle set is owned by the platform; the
handler itself does not mutate it. -/
def webSocketClose (st : RoomState) (sess : SessionState) (now : Nat) :
    RoomState × List Effect :=
  broadcastSystem st (sess.username ++ " left the room.") now

/-- One inbound event for a room instance, for reasoning about runs. -/
inductive RoomOp where
  | connect (isWs : Bool) (userParam : Option String) (conn : ConnId) (now now' : Nat)
  | message (sender : ConnId) (sess : SessionState) (parsed : Option JsonVal) (now : Nat)
  | close (sess : SessionState) (now : Nat)

/-- Apply one event to the room state (the single-threaded actor step). -/
def applyOp (st : RoomState) : RoomOp → RoomState
  | .connect isWs up conn now now' => (fetch st isWs up conn now now').1
  | .message sender sess parsed now => (webSocketMessage st sender sess parsed now).1
  | .close sess now => (webSocketClose st sess now).1

/-- A run of the room from a given state. -/
def runOps (st : RoomState) : List RoomOp → RoomState
  | [] => st
  | op :: ops => runOps (applyOp st op) ops

/-- The store id carried by an outbound payload, if any. -/
def outboundId : Outbound → Option Nat
  | .message m => some m.id
  | .system i _ => i
  | _ => none

/-- Persistence-before-broadcast for one effect trace: any send carrying
a store id is preceded by the SQL insert that assigned that id. -/
def PersistedBefore (effs : List Effect) : Prop :=
  ∀ (i : Nat) (c : ConnId) (ob : Outbound) (n : Nat),
    effs[i]? = some (Effect.send c ob) → outboundId ob = some n →
    ∃ (j : Nat) (r : ChatMessage),
      j < i ∧ effs[j]? = some (Effect.sqlInsert r) ∧ r.id = n

/-- The outbound payloads delivered to one connection by a trace, in
order. -/
def sendsTo (target : ConnId) (effs : List Effect) : List Outbound :=
  effs.filterMap (fun e =>
    match e with
    | .send c m => if c = target then some m else none
    | _ => none)

/-- The ids of the store rows are exactly `1, 2, ..., n` in insertion
order: strictly increasing with no gaps from 1. -/
def idsConsecutive (store : List ChatMessage) : Prop :=
  store.map (fun m => m.id) = List.range' 1 store.length

end ChatRoom

open ChatRoom

theorem sendsTo_nil (t : ConnId) : sendsTo t [] = [] := rfl

theorem sendsTo_broadcast_not_mem (t : ConnId) (cs : List ConnId) (m : Outbound)
    (h : t ∉ cs) : sendsTo t (broadcast cs m) = [] := by
  induction cs with
  | nil => rfl
  | cons c cs ih =>
    have hct : ¬ (c = t) := fun hc => h (by simp [hc])
    simp only [broadcast, List.map_cons, sendsTo, List.filterMap_cons, hct, if_false]
    exact ih (fun hm => h (List.mem_cons_of_mem _ hm))

theorem persistedBefore_nil : PersistedBefore [] := by
  intro i c ob n h _
  simp at h

theorem persistedBefore_cons_noid (e : Effect) (effs : List Effect)
    (he : ∀ c ob, e = Effect.send c ob → outboundId ob = none)
    (h : PersistedBefore effs) : PersistedBefore (e :: effs) := by
  intro i c ob n hi hn
  cases i with
  | zero =>
    rw [List.getElem?_cons_zero] at hi
    injection hi with hi
    rw [he c ob hi] at hn
    exact absurd hn (by simp)
  | succ i =>
    rw [List.getElem?_cons_succ] at hi
    obtain ⟨j, r, hj, hjr, hid⟩ := h i c ob n hi hn
    exact ⟨j + 1, r, by omega, by rwa [List.getElem?_cons_succ], hid⟩

theorem persistedBefore_insert_broadcast (m : ChatMessage) (conns : List ConnId)
    (ob : Outbound) (h : outboundId ob = some m.id) :
    PersistedBefore (Effect.sqlInsert m :: broadcast conns ob) := by
  intro i c ob' n hi hn
  cases i with
  | zero =>
    rw [List.getElem?_cons_zero] at hi
    exact absurd hi (by simp)
  | succ i =>
    rw [List.getElem?_cons_succ] at hi
    unfold broadcast at hi
    rw [List.getElem?_map] at hi
    cases hc : conns[i]? with
    | none => rw [hc] at hi; simp at hi
    | some c' =>
      rw [hc] at hi
      simp only [Option.map_some'] at hi
      injection hi with hi
      injection hi with h1 h2
      refine ⟨0, m, by omega, List.getElem?_cons_zero, ?_⟩
      rw [← h2] at hn
      rw [h] at hn
      injection hn

/-- C1 counterexample: the payload `{}` parses successfully but has no
`text` field; the handler takes the silent path and sends nothing, not
the error payload the claim requires. -/
theorem c1_counterexample :
    (webSocketMessage ⟨[0, 1], []⟩ 0 ⟨"A", 0⟩ (some (JsonVal.obj [])) 7).2 = [] ∧
    (webSocketMessage ⟨[0, 1], []⟩ 0 ⟨"A", 0⟩ (some (JsonVal.obj [])) 7).2 ≠
      [Effect.send 0 (Outbound.error "Invalid message format")] :=
  ⟨rfl, by decide⟩

/-- C1 (amended): on a JSON parse failure — or the caught TypeError from
reading `.text` off a parsed `null` — the handler sends exactly one
`{type:"error", error:"Invalid message format"}` payload to the sender
only, persists nothing and broadcasts nothing; when the payload parses
but `text` is absent or falsy, the handler does nothing at all (no error,
no persist, no broadcast). -/
theorem c1_malformed_message_behavior (st : RoomState) (sender : ConnId)
    (sess : SessionState) (now : Nat) :
    (webSocketMessage st sender sess none now =
      (st, [Effect.send sender (Outbound.error "Invalid message format")])) ∧
    (webSocketMessage st sender sess (some JsonVal.null) now =
      (st, [Effect.send sender (Outbound.error "Invalid message format")])) ∧
    (∀ data : JsonVal, getTextProp data = Except.ok none →
      webSocketMessage st sender sess (some data) now = (st, [])) ∧
    (∀ (data tv : JsonVal), getTextProp data = Except.ok (some tv) → truthy tv = false →
      webSocketMessage st sender sess (some data) now = (st, [])) := by
  refine ⟨rfl, rfl, ?_, ?_⟩
  · intro data h
    simp [webSocketMessage, h]
  · intro data tv h1 h2
    simp [webSocketMessage, h1, h2]

/-- Witness for C1: the concrete `{}` payload takes the do-nothing path. -/
theorem c1_malformed_message_behavior_witness :
    getTextProp (JsonVal.obj []) = Except.ok none ∧
    webSocketMessage ⟨[0, 1], []⟩ 0 ⟨"A", 0⟩ (some (JsonVal.obj [])) 7 = (⟨[0, 1], []⟩, []) :=
  ⟨rfl, (c1_malformed_message_behavior ⟨[0, 1], []⟩ 0 ⟨"A", 0⟩ 7).2.2.1 (JsonVal.obj []) rfl⟩

/-- C10: an upgrade request with no `username` query parameter (or an
empty one) is still admitted with status 101; the Session Attachment is
created with the default identity `"Anonymous"`, and the persisted and
broadcast join announcement reads `"Anonymous joined the room."` (the new
connection itself receives it). -/
theorem c10_anonymous_default (st : RoomState) (p : Option String) (conn : ConnId)
    (now now' : Nat) (hp : p = none ∨ p = some "") :
    (fetch st true p conn now now').2.2 = 101 ∧
    Effect.attach conn ⟨DEFAULT_USERNAME, now⟩ ∈ (fetch st true p conn now now').2.1 ∧
    Effect.sqlInsert
        ⟨nextId st.store, MSG_TYPE_SYSTEM, "system", "Anonymous joined the room.", now'⟩ ∈
      (fetch st true p conn now now').2.1 ∧
    Effect.send conn
        (Outbound.system (some (nextId st.store)) "Anonymous joined the room.") ∈
      (fetch st true p conn now now').2.1 := by
  have hu : usernameOf p = "Anonymous" := by
    rcases hp with rfl | rfl <;> rfl
  refine ⟨?_, ?_, ?_, ?_⟩ <;>
    simp [fetch, broadcastSystem, broadcast, ChatRoom.insert, hu, DEFAULT_USERNAME,
      MSG_TYPE_SYSTEM, List.mem_map]

/-- Witness for C10: a concrete connect with no `username` parameter. -/
theorem c10_anonymous_default_witness :
    ((none : Option String) = none ∨ (none : Option String) = some "") ∧
    (fetch ⟨[5], []⟩ true none 9 100 101).2.2 = 101 ∧
    Effect.attach 9 ⟨DEFAULT_USERNAME, 100⟩ ∈ (fetch ⟨[5], []⟩ true none 9 100 101).2.1 :=
  ⟨Or.inl rfl, (c10_anonymous_default ⟨[5], []⟩ none 9 100 101 (Or.inl rfl)).1,
    (c10_anonymous_default ⟨[5], []⟩ none 9 100 101 (Or.inl rfl)).2.1⟩

/-- C6: in every websocket upgrade the new connection receives exactly
two payloads, the history strictly first and then the join announcement
for its own join, and the join announcement is broadcast to every live
handle including the new one. -/
theorem c6_history_before_join (st : RoomState) (p : Option String) (newConn : ConnId)
    (now now' : Nat) (hfresh : newConn ∉ st.conns) :
    sendsTo newConn (fetch st true p newConn now now').2.1 =
      [Outbound.history (historyOf st.store),
       Outbound.system (some (nextId st.store)) (usernameOf p ++ " joined the room.")] ∧
    ∀ c, c ∈ st.conns ++ [newConn] →
      Effect.send c (Outbound.system (some (nextId st.store)) (usernameOf p ++ " joined the room.")) ∈
        (fetch st true p newConn now now').2.1 := by
  constructor
  · simp only [fetch, broadcastSystem, ChatRoom.insert, Bool.not_true, Bool.false_eq_true,
      if_false, ite_false, sendsTo, List.filterMap_cons, if_pos rfl]
    simp only [broadcast, List.map_append, List.filterMap_append]
    have h1 : sendsTo newConn (broadcast st.conns
        (Outbound.system (some (nextId st.store)) (usernameOf p ++ " joined the room."))) = [] :=
      sendsTo_broadcast_not_mem _ _ _ hfresh
    simp only [sendsTo, broadcast, List.map_append, List.filterMap_append] at h1 ⊢
    simp [h1]
  · intro c hc
    simp only [fetch, Bool.not_true, Bool.false_eq_true, if_false, ite_false,
      broadcastSystem, ChatRoom.insert, broadcast]
    simp only [List.mem_cons, List.mem_map]
    right; right; right; right
    exact ⟨c, hc, rfl⟩

/-- Witness for C6: a concrete connect on a room with one existing
connection and an empty store. -/
theorem c6_history_before_join_witness :
    (9 : ConnId) ∉ ([5] : List ConnId) ∧
    sendsTo 9 (fetch ⟨[5], []⟩ true (some "B") 9 3 4).2.1 =
      [Outbound.history (historyOf ([] : List ChatMessage)),
       Outbound.system (some (nextId ([] : List ChatMessage))) (usernameOf (some "B") ++ " joined the room.")] :=
  ⟨by decide, (c6_history_before_join ⟨[5], []⟩ (some "B") 9 3 4 (by decide)).1⟩

/-- C4: every Chat Event the room ever sends out carrying a store id —
live messages from `webSocketMessage`, join announcements from `fetch`,
leave announcements from `webSocketClose` — was inserted into the message
store, receiving that id, strictly earlier in the same handler's effect
trace. -/
theorem c4_persist_before_broadcast :
    (∀ (st : RoomState) (sender : ConnId) (sess : SessionState) (parsed : Option JsonVal)
      (now : Nat), PersistedBefore (webSocketMessage st sender sess parsed now).2) ∧
    (∀ (st : RoomState) (isWs : Bool) (p : Option String) (conn : ConnId) (now now' : Nat),
      PersistedBefore (fetch st isWs p conn now now').2.1) ∧
    (∀ (st : RoomState) (sess : SessionState) (now : Nat),
      PersistedBefore (webSocketClose st sess now).2) := by
  refine ⟨?_, ?_, ?_⟩
  · intro st sender sess parsed now
    match parsed with
    | none =>
      exact persistedBefore_cons_noid _ _ (fun c ob h => by injection h with _ h; rw [← h]; rfl)
        persistedBefore_nil
    | some data =>
      match hg : getTextProp data with
      | .error u =>
        simp only [webSocketMessage, hg]
        exact persistedBefore_cons_noid _ _ (fun c ob h => by injection h with _ h; rw [← h]; rfl)
          persistedBefore_nil
      | .ok none =>
        simp only [webSocketMessage, hg]
        exact persistedBefore_nil
      | .ok (some tv) =>
        simp only [webSocketMessage, hg]
        by_cases ht : truthy tv
        · simp only [ht, if_true]
          exact persistedBefore_insert_broadcast _ _ _ rfl
        · simp only [ht, if_false, Bool.false_eq_true]
          exact persistedBefore_nil
  · intro st isWs p conn now now'
    cases isWs with
    | false => exact persistedBefore_nil
    | true =>
      simp only [fetch, broadcastSystem, ChatRoom.insert, Bool.not_true, Bool.false_eq_true,
        if_false, ite_false]
      refine persistedBefore_cons_noid _ _ (fun c ob h => by injection h) ?_
      refine persistedBefore_cons_noid _ _ (fun c ob h => by injection h) ?_
      refine persistedBefore_cons_noid _ _
        (fun c ob h => by injection h with _ h; rw [← h]; rfl) ?_
      exact persistedBefore_insert_broadcast _ _ _ rfl
  · intro st sess now
    exact persistedBefore_insert_broadcast _ _ _ rfl

/-- Witness for C4: the trace of a concrete leave announcement satisfies
persistence-before-broadcast. -/
theorem c4_persist_before_broadcast_witness :
    PersistedBefore (webSocketClose ⟨[0], []⟩ ⟨"B", 0⟩ 3).2 :=
  c4_persist_before_broadcast.2.2 ⟨[0], []⟩ ⟨"B", 0⟩ 3

theorem foldr_max_range' (a n : Nat) :
    (List.range' a n).foldr max 0 = if n = 0 then 0 else a + n - 1 := by
  induction n generalizing a with
  | zero => rfl
  | succ n ih =>
    rw [List.range'_succ, List.foldr_cons, ih]
    by_cases hn : n = 0
    · subst hn; simp
    · simp only [hn, if_false, Nat.succ_ne_zero]
      rw [Nat.max_eq_right (by omega)]
      omega

theorem nextId_of_consecutive (store : List ChatMessage) (h : idsConsecutive store) :
    nextId store = store.length + 1 := by
  unfold nextId
  unfold idsConsecutive at h
  rw [h, foldr_max_range']
  by_cases hl : store.length = 0 <;> simp [hl]

theorem insert_consecutive (store : List ChatMessage) (t u x : String) (ts : Nat)
    (h : idsConsecutive store) :
    (ChatRoom.insert store t u x ts).1.id = store.length + 1 ∧
    idsConsecutive (ChatRoom.insert store t u x ts).2 := by
  have hn := nextId_of_consecutive store h
  refine ⟨by simp [ChatRoom.insert, hn], ?_⟩
  unfold idsConsecutive at h ⊢
  simp only [ChatRoom.insert, List.map_append, List.length_append, List.map_cons,
    List.map_nil, List.length_cons, List.length_nil, hn, h]
  rw [List.range'_1_concat]
  simp [Nat.add_comm]

theorem applyOp_consecutive (st : RoomState) (op : RoomOp) (h : idsConsecutive st.store) :
    idsConsecutive (applyOp st op).store := by
  cases op with
  | connect isWs up conn now now' =>
    cases isWs with
    | false => exact h
    | true =>
      simp only [applyOp, fetch, broadcastSystem, Bool.not_true, Bool.false_eq_true,
        if_false, ite_false]
      exact (insert_consecutive st.store _ _ _ _ h).2
  | message sender sess parsed now =>
    match parsed with
    | none => exact h
    | some data =>
      match hg : getTextProp data with
      | .error u => simpa only [applyOp, webSocketMessage, hg] using h
      | .ok none => simpa only [applyOp, webSocketMessage, hg] using h
      | .ok (some tv) =>
        simp only [applyOp, webSocketMessage, hg]
        by_cases ht : truthy tv
        · simp only [ht, if_true]
          exact (insert_consecutive st.store _ _ _ _ h).2
        · simpa only [ht, if_false, Bool.false_eq_true] using h
  | close sess now =>
    exact (insert_consecutive st.store _ _ _ _ h).2

theorem runOps_consecutive (ops : List RoomOp) (st : RoomState) (h : idsConsecutive st.store) :
    idsConsecutive (runOps st ops).store := by
  induction ops generalizing st with
  | nil => exact h
  | cons op ops ih => exact ih _ (applyOp_consecutive st op h)

/-- C5: along any sequence of room events starting from an empty store,
the store ids are exactly `1, 2, ..., n` in insertion order — strictly
increasing with no gaps — and under that invariant every single insert
returns the id one past the previous one (1 on an empty store). -/
theorem c5_ids_gap_free :
    (∀ (store : List ChatMessage) (t u x : String) (ts : Nat), idsConsecutive store →
      (ChatRoom.insert store t u x ts).1.id = store.length + 1 ∧
      idsConsecutive (ChatRoom.insert store t u x ts).2) ∧
    (∀ ops : List RoomOp, idsConsecutive (runOps ⟨[], []⟩ ops).store) :=
  ⟨fun store t u x ts h => insert_consecutive store t u x ts h,
   fun ops => runOps_consecutive ops ⟨[], []⟩ rfl⟩

/-- Witness for C5: a concrete insert on a two-row store with consecutive
ids returns id 3. -/
theorem c5_ids_gap_free_witness :
    idsConsecutive [⟨1, "message", "A", "x", 5⟩, ⟨2, "system", "system", "y", 6⟩] ∧
    (ChatRoom.insert [⟨1, "message", "A", "x", 5⟩, ⟨2, "system", "system", "y", 6⟩]
        "message" "B" "z" 7).1.id = 3 :=
  ⟨rfl,
    (c5_ids_gap_free.1 [⟨1, "message", "A", "x", 5⟩, ⟨2, "system", "system", "y", 6⟩]
      "message" "B" "z" 7 rfl).1⟩

theorem mem_insertByTsDesc (m x : ChatMessage) (l : List ChatMessage) :
    x ∈ insertByTsDesc m l ↔ x = m ∨ x ∈ l := by
  induction l with
  | nil => simp [insertByTsDesc]
  | cons y ys ih =>
    by_cases hc : m.timestamp ≤ y.timestamp
    · simp only [insertByTsDesc, hc, if_true, List.mem_cons, ih]
      tauto
    · simp [insertByTsDesc, hc]

theorem pairwise_insertByTsDesc (m : ChatMessage) (l : List ChatMessage)
    (h : l.Pairwise (fun a b => b.timestamp ≤ a.timestamp)) :
    (insertByTsDesc m l).Pairwise (fun a b => b.timestamp ≤ a.timestamp) := by
  induction l with
  | nil => simp [insertByTsDesc]
  | cons y ys ih =>
    rcases List.pairwise_cons.mp h with ⟨hy, hys⟩
    by_cases hc : m.timestamp ≤ y.timestamp
    · simp only [insertByTsDesc, hc, if_true]
      refine List.pairwise_cons.mpr ⟨?_, ih hys⟩
      intro z hz
      rcases (mem_insertByTsDesc m z ys).mp hz with rfl | hzys
      · exact hc
      · exact hy z hzys
    · simp only [insertByTsDesc, hc, if_false]
      refine List.pairwise_cons.mpr ⟨?_, h⟩
      intro z hz
      rcases List.mem_cons.mp hz with rfl | hzys
      · omega
      · exact le_trans (hy z hzys) (by omega)

theorem pairwise_foldl_insert (l acc : List ChatMessage)
    (h : acc.Pairwise (fun a b => b.timestamp ≤ a.timestamp)) :
    (l.foldl (fun a m => insertByTsDesc m a) acc).Pairwise
      (fun a b => b.timestamp ≤ a.timestamp) := by
  induction l generalizing acc with
  | nil => exact h
  | cons m l ih => exact ih _ (pairwise_insertByTsDesc m acc h)

theorem pairwise_sortByTimestampDesc (store : List ChatMessage) :
    (sortByTimestampDesc store).Pairwise (fun a b => b.timestamp ≤ a.timestamp) :=
  pairwise_foldl_insert store [] (by simp)

theorem reverse_take_reverse {α : Type} (l : List α) (n : Nat) :
    (l.reverse.take n).reverse = l.drop (l.length - n) := by
  by_cases h : l.length ≤ n
  · rw [List.take_of_length_le (by simpa using h), List.reverse_reverse,
      Nat.sub_eq_zero_of_le h, List.drop_zero]
  · calc (l.reverse.take n).reverse
        = ((l.take (l.length - n) ++ l.drop (l.length - n)).reverse.take n).reverse := by
          rw [List.take_append_drop]
      _ = ((l.drop (l.length - n)).reverse).reverse := by
          rw [List.reverse_append,
            List.take_left' (by rw [List.length_reverse, List.length_drop]; omega)]
      _ = l.drop (l.length - n) := List.reverse_reverse _

theorem foldl_insert_strict (l : List ChatMessage) :
    ∀ acc : List ChatMessage,
    l.Pairwise (fun a b => a.timestamp < b.timestamp) →
    (∀ m ∈ l, ∀ x ∈ acc, x.timestamp < m.timestamp) →
    l.foldl (fun a m => insertByTsDesc m a) acc = l.reverse ++ acc := by
  induction l with
  | nil => intro acc _ _; simp
  | cons m l ih =>
    intro acc hl hacc
    rcases List.pairwise_cons.mp hl with ⟨hm, hl'⟩
    have hins : insertByTsDesc m acc = m :: acc := by
      cases acc with
      | nil => rfl
      | cons y ys =>
        have hy : y.timestamp < m.timestamp := hacc m (by simp) y (by simp)
        simp only [insertByTsDesc, if_neg (by omega : ¬ m.timestamp ≤ y.timestamp)]
    rw [List.foldl_cons, hins, ih (m :: acc) hl' ?_]
    · simp
    · intro m' hm' x hx
      rcases List.mem_cons.mp hx with rfl | hxa
      · exact hm m' hm'
      · exact hacc m' (List.mem_cons_of_mem _ hm') x hxa

theorem sortByTimestampDesc_of_strict (store : List ChatMessage)
    (h : store.Pairwise (fun a b => a.timestamp < b.timestamp)) :
    sortByTimestampDesc store = store.reverse := by
  unfold sortByTimestampDesc
  rw [foldl_insert_strict store [] h (by simp), List.append_nil]

/-- C3 counterexample: with wall-clock regression between two inserts
(timestamps 100 then 50), the history — the query orders by `timestamp`,
not by id — is `[id 2, id 1]`, which is not a suffix of the persisted
log `[id 1, id 2]` in store (id) order. -/
theorem c3_counterexample :
    historyOf [⟨1, "message", "A", "x", 100⟩, ⟨2, "message", "A", "y", 50⟩] =
      [⟨2, "message", "A", "y", 50⟩, ⟨1, "message", "A", "x", 100⟩] ∧
    ¬ (historyOf [⟨1, "message", "A", "x", 100⟩, ⟨2, "message", "A", "y", 50⟩] <:+
        [⟨1, "message", "A", "x", 100⟩, ⟨2, "message", "A", "y", 50⟩]) :=
  ⟨rfl, by decide⟩

/-- C3 (amended): the history payload always holds at most 50 events in
chronological (timestamp) order, produced by fetching newest-first and
reversing; because the fetch orders by `timestamp` rather than id, it is
a suffix of the persisted log (the most recent entries by id) provided
the log's timestamps are strictly increasing in store order. -/
theorem c3_history_shape (store : List ChatMessage) :
    (historyOf store).length ≤ HISTORY_LIMIT ∧
    (historyOf store).Pairwise (fun a b => a.timestamp ≤ b.timestamp) ∧
    (store.Pairwise (fun a b => a.timestamp < b.timestamp) →
      historyOf store = store.drop (store.length - HISTORY_LIMIT) ∧
      historyOf store <:+ store) := by
  refine ⟨?_, ?_, ?_⟩
  · simp only [historyOf, List.length_reverse, List.length_take]
    exact Nat.min_le_left _ _
  · rw [historyOf, List.pairwise_reverse]
    exact List.Pairwise.sublist (List.take_sublist _ _)
      (pairwise_sortByTimestampDesc store)
  · intro hstrict
    have hdrop : historyOf store = store.drop (store.length - HISTORY_LIMIT) := by
      rw [historyOf, sortByTimestampDesc_of_strict store hstrict, reverse_take_reverse]
    exact ⟨hdrop, hdrop ▸ ⟨store.take (store.length - HISTORY_LIMIT),
      List.take_append_drop _ _⟩⟩

/-- Witness for C3: a two-row store with strictly increasing timestamps;
its history is the whole log. -/
theorem c3_history_shape_witness :
    ([⟨1, "message", "A", "x", 10⟩, ⟨2, "message", "A", "y", 20⟩] :
        List ChatMessage).Pairwise (fun a b => a.timestamp < b.timestamp) ∧
    historyOf [⟨1, "message", "A", "x", 10⟩, ⟨2, "message", "A", "y", 20⟩] =
      ([⟨1, "message", "A", "x", 10⟩, ⟨2, "message", "A", "y", 20⟩] :
        List ChatMessage).drop
        (([⟨1, "message", "A", "x", 10⟩, ⟨2, "message", "A", "y", 20⟩] :
          List ChatMessage).length - HISTORY_LIMIT) :=
  ⟨by simp, ((c3_history_shape _).2.2 (by simp)).1⟩

open Totp

theorem digitChar_isDigit (d : Nat) (h : d < 10) : (digitChar d).isDigit = true := by
  interval_cases d <;> decide

theorem digitChar_not_space (d : Nat) (h : d < 10) : isJsSpace (digitChar d) = false := by
  interval_cases d <;> decide

theorem decDigitsF_all (fuel : Nat) : ∀ (n : Nat), ∀ c ∈ decDigitsF fuel n,
    ∃ d, d < 10 ∧ c = digitChar d := by
  induction fuel with
  | zero => intro n c hc; simp [decDigitsF] at hc
  | succ fuel ih =>
    intro n c hc
    by_cases h10 : n < 10
    · simp only [decDigitsF, h10, if_true, List.mem_singleton] at hc
      exact ⟨n, h10, hc⟩
    · simp only [decDigitsF, h10, if_false] at hc
      rcases List.mem_append.mp hc with h | h
      · exact ih (n / 10) c h
      · rw [List.mem_singleton] at h
        exact ⟨n % 10, Nat.mod_lt _ (by omega), h⟩

theorem decDigitsF_len_of (fuel : Nat) : ∀ (n k : Nat), n < 10 ^ k → 0 < k →
    (decDigitsF fuel n).length ≤ k := by
  induction fuel with
  | zero => intro n k _ _; simp [decDigitsF]
  | succ fuel ih =>
    intro n k hnk hk
    by_cases h10 : n < 10
    · simp only [decDigitsF, h10, if_true, List.length_singleton]
      omega
    · simp only [decDigitsF, h10, if_false, List.length_append, List.length_singleton]
      have hk2 : 2 ≤ k := by
        by_contra hlt
        have : k = 1 := by omega
        subst this
        simp at hnk
        omega
      have hdiv : n / 10 < 10 ^ (k - 1) := by
        rw [Nat.div_lt_iff_lt_mul (by norm_num)]
        calc n < 10 ^ k := hnk
          _ = 10 ^ (k - 1) * 10 := by
            rw [← Nat.pow_succ]
            congr 1
            omega
      have := ih (n / 10) (k - 1) hdiv (by omega)
      omega

theorem pad6_props (m : Nat) (hm : m < 1000000) :
    (padStart6 (decDigits m)).length = 6 ∧
    (∀ c ∈ padStart6 (decDigits m), c.isDigit = true ∧ isJsSpace c = false) := by
  have hlen : (decDigits m).length ≤ 6 :=
    decDigitsF_len_of (m + 1) m 6 (by norm_num; omega) (by norm_num)
  constructor
  · simp only [padStart6, List.length_append, List.length_replicate]
    omega
  · intro c hc
    rcases List.mem_append.mp hc with h | h
    · rw [List.eq_of_mem_replicate h]
      exact ⟨rfl, rfl⟩
    · obtain ⟨d, hd, rfl⟩ := decDigitsF_all (m + 1) m c h
      exact ⟨digitChar_isDigit d hd, digitChar_not_space d hd⟩

theorem sanitizeToken_pad6 (m : Nat) (hm : m < 1000000) :
    sanitizeToken ⟨padStart6 (decDigits m)⟩ = some ⟨padStart6 (decDigits m)⟩ := by
  obtain ⟨hlen, hall⟩ := pad6_props m hm
  have htl : (String.mk (padStart6 (decDigits m))).toList = padStart6 (decDigits m) := rfl
  unfold sanitizeToken
  rw [htl, List.filter_eq_self.mpr (fun c hc => by simp [(hall c hc).2])]
  rw [if_pos]
  rw [Bool.and_eq_true]
  constructor
  · simp [hlen]
  · rw [List.all_eq_true]
    intro c hc
    exact (hall c hc).1

theorem sanitizeToken_hotp (hm : List Nat → List Nat → List Nat) (sb : List Nat)
    (c : Int) : sanitizeToken (hotp hm sb c) = some (hotp hm sb c) := by
  unfold hotp
  exact sanitizeToken_pad6 _ (Nat.mod_lt _ (by norm_num))

theorem verifyLoop_ok_iff (hm : List Nat → List Nat → List Nat) (sb : List Nat)
    (cleaned : String) (s : Nat) (ds : List Int) (calls : Nat) :
    (verifyLoop hm sb cleaned s ds calls).ok = true ↔
      ∃ d ∈ ds, cleaned = hotp hm sb ((s : Int) + d) := by
  induction ds generalizing calls with
  | nil => simp [verifyLoop]
  | cons d ds ih =>
    by_cases h : timingSafeEqual cleaned (hotp hm sb ((s : Int) + d))
    · simp only [verifyLoop, h, if_true]
      have heq : cleaned = hotp hm sb ((s : Int) + d) := by
        simpa [timingSafeEqual] using h
      simp [heq]
    · simp only [verifyLoop, h, Bool.false_eq_true, if_false]
      rw [ih (calls + 1)]
      constructor
      · rintro ⟨e, he, heq⟩
        exact ⟨e, List.mem_cons_of_mem _ he, heq⟩
      · rintro ⟨e, he, heq⟩
        rcases List.mem_cons.mp he with rfl | he'
        · exact absurd (by simpa [timingSafeEqual] using heq.symm ▸ rfl) h
        · exact ⟨e, he', heq⟩

/-- C9: a raw code that does not sanitize to exactly six ASCII digits is
rejected with no cryptographic work and no configuration log; a secret
that fails Base32 decoding yields `false` to the caller — observably
identical apart from the server-side configuration-error log — again with
no HOTP computation; and a raw code with embedded whitespace whose
sanitized form matches a windowed HOTP value verifies successfully. -/
theorem c9_verify_failure_paths (hm : List Nat → List Nat → List Nat) (secret : String)
    (nowMs : Nat) :
    (∀ raw : String, sanitizeToken raw = none →
      verifyToken hm secret raw nowMs = ⟨false, 0, false⟩) ∧
    (∀ (raw cleaned : String), sanitizeToken raw = some cleaned →
      base32Decode secret = none →
      verifyToken hm secret raw nowMs = ⟨false, 0, true⟩) ∧
    (∀ (raw cleaned : String) (sb : List Nat) (d : Int), sanitizeToken raw = some cleaned →
      base32Decode secret = some sb → d ∈ ([-1, 0, 1] : List Int) →
      cleaned = hotp hm sb ((nowMs / 30000 : Nat) + d) →
      (verifyToken hm secret raw nowMs).ok = true) := by
  refine ⟨?_, ?_, ?_⟩
  · intro raw h
    simp [verifyToken, h]
  · intro raw cleaned h1 h2
    simp [verifyToken, h1, h2]
  · intro raw cleaned sb d h1 h2 hd heq
    simp only [verifyToken, h1, h2]
    exact (verifyLoop_ok_iff hm sb cleaned (nowMs / 30000) [-1, 0, 1] 0).mpr ⟨d, hd, heq⟩

/-- Witness for C9: a five-digit code is rejected without crypto; an
invalid secret is logged as a configuration error; `"215 045"` with an
embedded space verifies against the matching windowed code. -/
theorem c9_verify_failure_paths_witness :
    sanitizeToken "12345" = none ∧
    verifyToken hmacW "AAAA" "12345" 150000 = ⟨false, 0, false⟩ ∧
    sanitizeToken "123456" = some "123456" ∧
    base32Decode "@bad" = none ∧
    verifyToken hmacW "@bad" "123456" 150000 = ⟨false, 0, true⟩ ∧
    sanitizeToken "215 045" = some "215045" ∧
    base32Decode "AAAA" = some [0, 0] ∧
    "215045" = hotp hmacW [0, 0] ((150000 / 30000 : Nat) + 0) ∧
    (verifyToken hmacW "AAAA" "215 045" 150000).ok = true :=
  ⟨by decide,
   (c9_verify_failure_paths hmacW "AAAA" 150000).1 "12345" (by decide),
   by decide,
   by decide,
   (c9_verify_failure_paths hmacW "@bad" 150000).2.1 "123456" "123456" (by decide) (by decide),
   by decide,
   by decide,
   by decide,
   (c9_verify_failure_paths hmacW "AAAA" 150000).2.2 "215 045" "215045" [0, 0] 0
     (by decide) (by decide) (by decide) (by decide)⟩

/-- C2: for a code generated as `hotp(secret, t)`, `verify` evaluated at
a wall-clock time whose step is `s` succeeds exactly when `s` lies in
`{t-1, t, t+1}`, assuming no HOTP collision between `t` and the other
steps of the checked window. -/
theorem c2_totp_window (hm : List Nat → List Nat → List Nat) (secret : String)
    (sb : List Nat) (t s nowMs : Nat)
    (hdec : base32Decode secret = some sb)
    (hs : nowMs / 30000 = s)
    (hnc : ∀ d : Int, d ∈ ([(s : Int) - 1, (s : Int), (s : Int) + 1] : List Int) →
      hotp hm sb d = hotp hm sb (t : Int) → d = (t : Int)) :
    (verifyToken hm secret (hotp hm sb (t : Int)) nowMs).ok = true ↔
      ((s : Int) = (t : Int) - 1 ∨ s = t ∨ (s : Int) = (t : Int) + 1) := by
  simp only [verifyToken, sanitizeToken_hotp hm sb (t : Int), hdec, hs]
  rw [verifyLoop_ok_iff]
  constructor
  · rintro ⟨d, hd, heq⟩
    simp only [List.mem_cons, List.not_mem_nil, or_false] at hd
    have hdt : (s : Int) + d = (t : Int) := by
      apply hnc ((s : Int) + d)
      · simp only [List.mem_cons, List.not_mem_nil, or_false]
        omega
      · exact heq.symm
    omega
  · intro hst
    refine ⟨(t : Int) - (s : Int), ?_,
      by rw [show (s : Int) + ((t : Int) - (s : Int)) = (t : Int) by omega]⟩
    simp only [List.mem_cons, List.not_mem_nil, or_false]
    omega

/-- Witness for C2: the concrete digest function `hmacW`, secret
`"AAAA"`, code generated at step 5 and checked at step 5. -/
theorem c2_totp_window_witness :
    base32Decode "AAAA" = some [0, 0] ∧
    (150000 : Nat) / 30000 = 5 ∧
    (∀ d : Int, d ∈ ([((5 : Nat) : Int) - 1, ((5 : Nat) : Int), ((5 : Nat) : Int) + 1] : List Int) →
      hotp hmacW [0, 0] d = hotp hmacW [0, 0] ((5 : Nat) : Int) → d = ((5 : Nat) : Int)) ∧
    ((verifyToken hmacW "AAAA" (hotp hmacW [0, 0] ((5 : Nat) : Int)) 150000).ok = true ↔
      (((5 : Nat) : Int) = ((5 : Nat) : Int) - 1 ∨ (5 : Nat) = (5 : Nat) ∨
        ((5 : Nat) : Int) = ((5 : Nat) : Int) + 1)) :=
  ⟨by decide, by decide, by decide,
    c2_totp_window hmacW "AAAA" [0, 0] 5 5 150000 (by decide) (by decide) (by decide)⟩

theorem and15 (x : Nat) : x &&& 15 = x % 16 := by
  have h := Nat.and_pow_two_sub_one_eq_mod x 4
  norm_num at h
  exact h

theorem and31 (x : Nat) : x &&& 31 = x % 32 := by
  have h := Nat.and_pow_two_sub_one_eq_mod x 5
  norm_num at h
  exact h

theorem and127 (x : Nat) : x &&& 127 = x % 128 := by
  have h := Nat.and_pow_two_sub_one_eq_mod x 7
  norm_num at h
  exact h

theorem and255 (x : Nat) : x &&& 255 = x % 256 := by
  have h := Nat.and_pow_two_sub_one_eq_mod x 8
  norm_num at h
  exact h

theorem counterToBytes_eq (n : Nat) (hc : n < 2 ^ 53) :
    counterToBytes (n : Int) = bigEndian8 n := by
  have hfd : jsFloorDivHigh (n : Int) = ((n / 4294967296 : Nat) : Int) := by
    unfold jsFloorDivHigh
    rw [Int.fdiv_eq_ediv _ (by norm_num)]
    norm_cast
  have htu : ∀ m : Nat, toUint32 ((m : Nat) : Int) = m % 4294967296 := by
    intro m
    unfold toUint32
    omega
  simp only [counterToBytes, bigEndian8, hfd, htu, Nat.shiftRight_eq_div_pow, and255,
    List.cons.injEq, and_true]
  norm_num
  omega

theorem lor_four (a b c e : Nat) (hb : b < 256) (hc : c < 256) (he : e < 256) :
    (a <<< 24) ||| (b <<< 16) ||| (c <<< 8) ||| e =
      a * 2 ^ 24 + b * 2 ^ 16 + c * 2 ^ 8 + e := by
  rw [Nat.shiftLeft_eq, Nat.shiftLeft_eq, Nat.shiftLeft_eq]
  have h1 : a * 2 ^ 24 ||| b * 2 ^ 16 = a * 2 ^ 24 + b * 2 ^ 16 := by
    rw [show a * 2 ^ 24 = 2 ^ 24 * a by ring]
    rw [← Nat.mul_add_lt_is_or (by omega : b * 2 ^ 16 < 2 ^ 24) a]
  have h2 : a * 2 ^ 24 + b * 2 ^ 16 ||| c * 2 ^ 8 =
      a * 2 ^ 24 + b * 2 ^ 16 + c * 2 ^ 8 := by
    rw [show a * 2 ^ 24 + b * 2 ^ 16 = 2 ^ 16 * (2 ^ 8 * a + b) by ring]
    rw [← Nat.mul_add_lt_is_or (by omega : c * 2 ^ 8 < 2 ^ 16) (2 ^ 8 * a + b)]
  have h3 : a * 2 ^ 24 + b * 2 ^ 16 + c * 2 ^ 8 ||| e =
      a * 2 ^ 24 + b * 2 ^ 16 + c * 2 ^ 8 + e := by
    rw [show a * 2 ^ 24 + b * 2 ^ 16 + c * 2 ^ 8 = 2 ^ 8 * (2 ^ 16 * a + 2 ^ 8 * b + c)
      by ring]
    rw [← Nat.mul_add_lt_is_or he (2 ^ 16 * a + 2 ^ 8 * b + c)]
  rw [h1, h2, h3]

/-- C7: for every secret and every non-negative counter below `2 ^ 53`,
`hotp` equals the RFC 4226 reference computation: HMAC over the 8-byte
big-endian counter, dynamic truncation at the offset given by the low
nibble of the last digest byte, top bit of the first selected byte masked
off, big-endian 31-bit value reduced modulo 1,000,000 and zero-padded to
six digits. -/
theorem c7_hotp_rfc (hm : List Nat → List Nat → List Nat) (sb : List Nat) (counter : Nat)
    (hc : counter < 2 ^ 53)
    (_hlen : (hm sb (bigEndian8 counter)).length = 20)
    (_hb : ∀ b ∈ hm sb (bigEndian8 counter), b < 256) :
    hotp hm sb (counter : Int) = rfcHotp hm sb counter := by
  simp only [hotp, rfcHotp, counterToBytes_eq counter hc, and15, and127, and255]
  rw [lor_four _ _ _ _ (Nat.mod_lt _ (by norm_num)) (Nat.mod_lt _ (by norm_num))
    (Nat.mod_lt _ (by norm_num))]

/-- Witness for C7: the concrete digest function `hmacW` at counter 5
with a 2-byte secret. -/
theorem c7_hotp_rfc_witness :
    (5 : Nat) < 2 ^ 53 ∧
    (hmacW [0, 0] (bigEndian8 5)).length = 20 ∧
    (∀ b ∈ hmacW [0, 0] (bigEndian8 5), b < 256) ∧
    hotp hmacW [0, 0] ((5 : Nat) : Int) = rfcHotp hmacW [0, 0] 5 :=
  ⟨by norm_num, by decide, by decide,
    c7_hotp_rfc hmacW [0, 0] 5 (by norm_num) (by decide) (by decide)⟩

theorem alphaIdx_alphaChar (k : Nat) (h : k < 32) :
    alphaIdx BASE32_ALPHABET.toList (alphaChar k) = some k := by
  revert k
  decide

theorem alphaIdx_alphaChar_mod (x : Nat) :
    alphaIdx BASE32_ALPHABET.toList (alphaChar (x % 32)) = some (x % 32) :=
  alphaIdx_alphaChar (x % 32) (Nat.mod_lt _ (by norm_num))

theorem alphaChar_clean (k : Nat) (h : k < 32) :
    (alphaChar k).toUpper = alphaChar k ∧
    (!(alphaChar k = '=' || isJsSpace (alphaChar k))) = true := by
  revert k
  decide

theorem alphaIdx_none_iff (l : List Char) (c : Char) :
    alphaIdx l c = none ↔ c ∉ l := by
  induction l with
  | nil => simp [alphaIdx]
  | cons a as ih =>
    by_cases hac : a = c
    · simp [alphaIdx, hac]
    · simp only [alphaIdx, hac, if_false, Option.map_eq_none', List.mem_cons, ih]
      constructor
      · rintro h (rfl | h2)
        · exact hac rfl
        · exact h h2
      · intro h h2
        exact h (Or.inr h2)

theorem b32EmitF_8 (v : Nat) : b32EmitF 8 v 8 = ([alphaChar ((v >>> 3) &&& 31)], 3) := rfl

theorem b32EmitF_11 (v : Nat) : b32EmitF 11 v 11 =
    ([alphaChar ((v >>> 6) &&& 31), alphaChar ((v >>> 1) &&& 31)], 1) := rfl

theorem b32EmitF_9 (v : Nat) : b32EmitF 9 v 9 = ([alphaChar ((v >>> 4) &&& 31)], 4) := rfl

theorem b32EmitF_12 (v : Nat) : b32EmitF 12 v 12 =
    ([alphaChar ((v >>> 7) &&& 31), alphaChar ((v >>> 2) &&& 31)], 2) := rfl

theorem b32EmitF_10 (v : Nat) : b32EmitF 10 v 10 =
    ([alphaChar ((v >>> 5) &&& 31), alphaChar ((v >>> 0) &&& 31)], 0) := rfl

theorem encStep_or (v b : Nat) (hb : b < 256) :
    (v <<< 8) % 4294967296 ||| b = v * 256 % 4294967296 + b := by
  rw [Nat.shiftLeft_eq]
  have h : v * 2 ^ 8 % 4294967296 = 2 ^ 8 * (v % 16777216) := by
    rw [show (4294967296 : Nat) = 2 ^ 8 * 16777216 by norm_num, Nat.mul_comm v (2 ^ 8),
      Nat.mul_mod_mul_left]
  rw [h, ← Nat.mul_add_lt_is_or (by omega : b < 2 ^ 8) (v % 16777216)]
  norm_num
  omega

theorem decStep_or (v x : Nat) :
    (v <<< 5) % 4294967296 ||| (x % 32) = v * 32 % 4294967296 + x % 32 := by
  rw [Nat.shiftLeft_eq]
  have h : v * 2 ^ 5 % 4294967296 = 2 ^ 5 * (v % 134217728) := by
    rw [show (4294967296 : Nat) = 2 ^ 5 * 134217728 by norm_num, Nat.mul_comm v (2 ^ 5),
      Nat.mul_mod_mul_left]
  rw [h, ← Nat.mul_add_lt_is_or (by omega : x % 32 < 2 ^ 5) (v % 134217728)]
  norm_num
  omega

theorem b32Loop_length (cs : List Char) : ∀ (bits value : Nat) (r : List Nat), bits < 8 →
    b32Loop cs bits value = some r → r.length = (5 * cs.length + bits) / 8 := by
  induction cs with
  | nil =>
    intro bits value r _ h
    injection h with h
    subst h
    simp
    omega
  | cons c cs ih =>
    intro bits value r hb h
    simp only [b32Loop] at h
    cases hidx : alphaIdx BASE32_ALPHABET.toList c with
    | none => rw [hidx] at h; exact absurd h (by simp)
    | some ci =>
      rw [hidx] at h
      dsimp only [] at h
      by_cases h8 : 8 ≤ bits + 5
      · rw [if_pos h8] at h
        cases hrec : b32Loop cs (bits + 5 - 8) ((value <<< 5) % 4294967296 ||| ci) with
        | none => rw [hrec] at h; exact absurd h (by simp)
        | some rest =>
          rw [hrec] at h
          simp only [Option.map_some'] at h
          injection h with h
          subst h
          have := ih (bits + 5 - 8) ((value <<< 5) % 4294967296 ||| ci) rest
            (by omega) hrec
          simp only [List.length_cons, this, List.length_cons]
          omega
      · rw [if_neg h8] at h
        have := ih (bits + 5) ((value <<< 5) % 4294967296 ||| ci) r (by omega) h
        simp only [this, List.length_cons]
        omega

theorem b32Loop_none_iff (cs : List Char) : ∀ (bits value : Nat),
    b32Loop cs bits value = none ↔
      ∃ c ∈ cs, alphaIdx BASE32_ALPHABET.toList c = none := by
  induction cs with
  | nil => intro bits value; simp [b32Loop]
  | cons c cs ih =>
    intro bits value
    simp only [b32Loop]
    cases hidx : alphaIdx BASE32_ALPHABET.toList c with
    | none =>
      simp only [hidx, List.mem_cons]
      constructor
      · intro _
        exact ⟨c, Or.inl rfl, hidx⟩
      · intro _
        trivial
    | some ci =>
      dsimp only []
      by_cases h8 : 8 ≤ bits + 5
      · rw [if_pos h8]
        simp only [Option.map_eq_none', ih, List.mem_cons]
        constructor
        · rintro ⟨d, hd, hnone⟩
          exact ⟨d, Or.inr hd, hnone⟩
        · rintro ⟨d, rfl | hd, hnone⟩
          · rw [hidx] at hnone; exact absurd hnone (by simp)
          · exact ⟨d, hd, hnone⟩
      · rw [if_neg h8]
        rw [ih]
        constructor
        · rintro ⟨d, hd, hnone⟩
          exact ⟨d, List.mem_cons_of_mem _ hd, hnone⟩
        · rintro ⟨d, hd, hnone⟩
          rcases List.mem_cons.mp hd with rfl | hd'
          · rw [hidx] at hnone; exact absurd hnone (by simp)
          · exact ⟨d, hd', hnone⟩

theorem b32EmitF_succ (fuel v bits : Nat) :
    b32EmitF (fuel + 1) v bits =
      if 5 ≤ bits then
        (alphaChar ((v >>> (bits - 5)) &&& 31) :: (b32EmitF fuel v (bits - 5)).1,
         (b32EmitF fuel v (bits - 5)).2)
      else ([], bits) := by
  by_cases h5 : 5 ≤ bits
  · rcases hE : b32EmitF fuel v (bits - 5) with ⟨cs, r⟩
    simp [b32EmitF, h5, hE]
  · simp [b32EmitF, h5]

theorem b32EncLoop_cons (b : Nat) (bs : List Nat) (v bits : Nat) :
    b32EncLoop (b :: bs) v bits =
      (b32EmitF (bits + 8) ((v <<< 8) % 4294967296 ||| b) (bits + 8)).1 ++
        b32EncLoop bs ((v <<< 8) % 4294967296 ||| b)
          (b32EmitF (bits + 8) ((v <<< 8) % 4294967296 ||| b) (bits + 8)).2 := by
  rcases hE : b32EmitF (bits + 8) ((v <<< 8) % 4294967296 ||| b) (bits + 8) with ⟨cs, r⟩
  simp [b32EncLoop, hE]

set_option maxHeartbeats 2000000 in
theorem rt_block (b0 b1 b2 b3 b4 : Nat) (hb0 : b0 < 256) (hb1 : b1 < 256)
    (hb2 : b2 < 256) (hb3 : b3 < 256) (hb4 : b4 < 256) (rest tail : List Nat)
    (hrec : ∀ v' w' : Nat, b32Loop (b32EncLoop rest v' 0) 0 w' = some tail) :
    ∀ v w : Nat, b32Loop (b32EncLoop (b0 :: b1 :: b2 :: b3 :: b4 :: rest) v 0) 0 w =
      some (b0 :: b1 :: b2 :: b3 :: b4 :: tail) := by
  intro v w
  norm_num only [b32EncLoop_cons, b32EmitF_8, b32EmitF_9, b32EmitF_10, b32EmitF_11,
    b32EmitF_12, encStep_or, hb0, hb1, hb2, hb3, hb4]
  norm_num only [b32Loop, and31, and255, Nat.shiftRight_eq_div_pow,
    alphaIdx_alphaChar_mod, decStep_or, hrec, Option.map_some', List.cons_append,
    List.append_eq, List.nil_append, List.append_nil, if_true, if_false]
  simp only [Option.some.injEq, List.cons.injEq, and_true]
  omega

theorem rt_blocks (n : Nat) : ∀ (bs : List Nat) (v w : Nat), bs.length = 5 * n →
    (∀ b ∈ bs, b < 256) → b32Loop (b32EncLoop bs v 0) 0 w = some bs := by
  induction n with
  | zero =>
    intro bs v w hlen _
    have hnil : bs = [] := List.eq_nil_of_length_eq_zero (by omega)
    subst hnil
    rfl
  | succ n ih =>
    intro bs v w hlen hall
    match bs, hlen with
    | b0 :: b1 :: b2 :: b3 :: b4 :: rest, hlen =>
      have hrl : rest.length = 5 * n := by
        simp only [List.length_cons] at hlen
        omega
      have hrest : ∀ b ∈ rest, b < 256 := fun b hb => hall b (by simp [hb])
      exact rt_block b0 b1 b2 b3 b4 (hall b0 (by simp)) (hall b1 (by simp))
        (hall b2 (by simp)) (hall b3 (by simp)) (hall b4 (by simp)) rest rest
        (fun v' w' => ih rest v' w' hrl hrest) v w

theorem b32EmitF_chars (fuel : Nat) : ∀ (v bits : Nat), ∀ c ∈ (b32EmitF fuel v bits).1,
    ∃ k, k < 32 ∧ c = alphaChar k := by
  induction fuel with
  | zero => intro v bits c hc; simp [b32EmitF] at hc
  | succ fuel ih =>
    intro v bits c hc
    rw [b32EmitF_succ] at hc
    by_cases h5 : 5 ≤ bits
    · rw [if_pos h5] at hc
      rcases List.mem_cons.mp hc with rfl | h
      · exact ⟨(v >>> (bits - 5)) &&& 31, by rw [and31]; exact Nat.mod_lt _ (by norm_num),
          rfl⟩
      · exact ih v (bits - 5) c h
    · rw [if_neg h5] at hc
      simp at hc

theorem b32EncLoop_chars (bs : List Nat) : ∀ (v bits : Nat), ∀ c ∈ b32EncLoop bs v bits,
    ∃ k, k < 32 ∧ c = alphaChar k := by
  induction bs with
  | nil =>
    intro v bits c hc
    simp only [b32EncLoop] at hc
    by_cases h0 : 0 < bits
    · rw [if_pos h0, List.mem_singleton] at hc
      subst hc
      exact ⟨(v <<< (5 - bits)) % 4294967296 &&& 31,
        by rw [and31]; exact Nat.mod_lt _ (by norm_num), rfl⟩
    · rw [if_neg h0] at hc
      simp at hc
  | cons b bs ih =>
    intro v bits c hc
    rw [b32EncLoop_cons] at hc
    rcases List.mem_append.mp hc with h | h
    · exact b32EmitF_chars _ _ _ c h
    · exact ih _ _ c h

theorem map_toUpper_of_alpha (cs : List Char)
    (h : ∀ c ∈ cs, ∃ k, k < 32 ∧ c = alphaChar k) : cs.map Char.toUpper = cs := by
  induction cs with
  | nil => rfl
  | cons c cs ihc =>
    obtain ⟨k, hk, rfl⟩ := h c (by simp)
    rw [List.map_cons, (alphaChar_clean k hk).1,
      ihc (fun d hd => h d (List.mem_cons_of_mem _ hd))]

theorem b32Clean_of_alpha (cs : List Char)
    (h : ∀ c ∈ cs, ∃ k, k < 32 ∧ c = alphaChar k) : b32Clean ⟨cs⟩ = cs := by
  unfold b32Clean
  have htl : (String.mk cs).toList = cs := rfl
  rw [htl]
  rw [map_toUpper_of_alpha cs h]
  apply List.filter_eq_self.mpr
  intro c hc
  obtain ⟨k, hk, rfl⟩ := h c hc
  exact (alphaChar_clean k hk).2

/-- C8: decoding the Base32 encoding of any 20-byte sequence (the
system's secret length) recovers the original bytes exactly; a successful
decode always yields `floor(len(clean) * 5 / 8)` bytes, `clean` being the
padding/whitespace-stripped uppercased input; and decoding fails exactly
when some cleaned character lies outside the 32-symbol alphabet. -/
theorem c8_base32_props :
    (∀ bs : List Nat, bs.length = 20 → (∀ b ∈ bs, b < 256) →
      base32Decode (base32Encode bs) = some bs) ∧
    (∀ (s : String) (r : List Nat), base32Decode s = some r →
      r.length = (b32Clean s).length * 5 / 8) ∧
    (∀ s : String, base32Decode s = none ↔
      ∃ c ∈ b32Clean s, c ∉ BASE32_ALPHABET.toList) := by
  refine ⟨?_, ?_, ?_⟩
  · intro bs hlen hall
    unfold base32Decode base32Encode
    rw [b32Clean_of_alpha _ (b32EncLoop_chars bs 0 0)]
    exact rt_blocks 4 bs 0 0 (by omega) hall
  · intro s r h
    unfold base32Decode at h
    have hl := b32Loop_length (b32Clean s) 0 0 r (by norm_num) h
    omega
  · intro s
    unfold base32Decode
    rw [b32Loop_none_iff]
    constructor
    · rintro ⟨c, hc, hnone⟩
      exact ⟨c, hc, (alphaIdx_none_iff _ c).mp hnone⟩
    · rintro ⟨c, hc, hmem⟩
      exact ⟨c, hc, (alphaIdx_none_iff _ c).mpr hmem⟩

/-- Witness for C8: a concrete 20-byte secret round-trips, and the known
vector `"JBSWY3DPEHPK3PXP"` decodes with the claimed output length. -/
theorem c8_base32_props_witness :
    ([72, 101, 108, 108, 111, 33, 222, 173, 190, 239,
      72, 101, 108, 108, 111, 33, 222, 173, 190, 239] : List Nat).length = 20 ∧
    (∀ b ∈ ([72, 101, 108, 108, 111, 33, 222, 173, 190, 239,
      72, 101, 108, 108, 111, 33, 222, 173, 190, 239] : List Nat), b < 256) ∧
    base32Decode (base32Encode [72, 101, 108, 108, 111, 33, 222, 173, 190, 239,
      72, 101, 108, 108, 111, 33, 222, 173, 190, 239]) =
      some [72, 101, 108, 108, 111, 33, 222, 173, 190, 239,
        72, 101, 108, 108, 111, 33, 222, 173, 190, 239] ∧
    base32Decode "JBSWY3DPEHPK3PXP" =
      some [72, 101, 108, 108, 111, 33, 222, 173, 190, 239] ∧
    ([72, 101, 108, 108, 111, 33, 222, 173, 190, 239] : List Nat).length =
      (b32Clean "JBSWY3DPEHPK3PXP").length * 5 / 8 :=
  ⟨rfl, by decide,
    c8_base32_props.1 _ rfl (by decide),
    by decide,
    c8_base32_props.2.1 "JBSWY3DPEHPK3PXP" _ (by decide)⟩
